import Mathlib

/-!
Verification development for the circuit-equivalence-checker repository.

The repository contains two Python modules built on an external
satisfiability oracle (z3):

* circuit_equivalence.py : compiles two circuits into inlined boolean
  expressions over shared input variables, asserts the miter disjunction
  (some positional output pair differs) and asks the oracle for a model;
* circuit-evaluator.py : compiles one circuit in constrained mode
  (a fresh variable per gate plus a defining equality), asserts the given
  input/signal assignments and asks the oracle for a model of the outputs.

This file embeds the circuit data model, both compilation modes and both
top-level procedures.  The oracle is modelled semantically: satisfiability
over the finitely many relevant boolean variables is decided by
enumerating all assignments to those variables, and the model handed back
is the first satisfying assignment in that enumeration.  The n-ary
conjunctions and disjunctions the source hands to the oracle are embedded
as right folds of binary connectives with the corresponding units
(the oracle treats an empty conjunction as true and an empty disjunction
as false, as z3 does).
-/

/-- Gate record: output signal name, gate type string, input signal names. -/
structure Gate where
  name : String
  type : String
  inputs : List String
  deriving DecidableEq

/-- Circuit record exactly as the Python dictionaries are shaped. -/
structure Circuit where
  inputs : List String
  gates : List Gate
  outputs : List String
  deriving DecidableEq

/-- Boolean formula node handed to the oracle. -/
inductive BExpr where
  | var (s : String)
  | trueConst
  | falseConst
  | andE (a b : BExpr)
  | orE (a b : BExpr)
  | notE (a : BExpr)
  | xorE (a b : BExpr)
  deriving DecidableEq

/-- Evaluation of a formula under a total valuation of the variables,
matching the oracle semantics of the z3 node constructions used by the
source. -/
def BExpr.eval (σ : String → Bool) : BExpr → Bool
  | .var s => σ s
  | .trueConst => true
  | .falseConst => false
  | .andE a b => a.eval σ && b.eval σ
  | .orE a b => a.eval σ || b.eval σ
  | .notE a => !(a.eval σ)
  | .xorE a b => a.eval σ != b.eval σ

/-- Check that every variable occurring in a formula is listed in S. -/
def BExpr.varsIn (S : List String) : BExpr → Bool
  | .var s => S.contains s
  | .trueConst => true
  | .falseConst => true
  | .andE a b => a.varsIn S && b.varsIn S
  | .orE a b => a.varsIn S && b.varsIn S
  | .notE a => a.varsIn S
  | .xorE a b => a.varsIn S && b.varsIn S

/-- Embedding of the n-ary z3 conjunction And([...]). -/
def mkAndList (es : List BExpr) : BExpr := es.foldr .andE .trueConst

/-- Embedding of the n-ary z3 disjunction Or([...]). -/
def mkOrList (es : List BExpr) : BExpr := es.foldr .orE .falseConst

/-- Python-dict insertion on an association list: overwrite the value in
place when the key is present, append the binding otherwise. -/
def dinsert (d : List (String × α)) (k : String) (v : α) : List (String × α) :=
  match d with
  | [] => [(k, v)]
  | (k0, v0) :: rest => if k0 = k then (k0, v) :: rest else (k0, v0) :: dinsert rest k v

/-- Python-dict lookup on an association list. -/
def dlookup (d : List (String × α)) (k : String) : Option α :=
  match d with
  | [] => none
  | (k0, v0) :: rest => if k0 = k then some v0 else dlookup rest k

/-- Uppercase a string character by character; embeds the Python
str.upper() applied to gate type names. -/
def strUpper (s : String) : String := ⟨s.data.map Char.toUpper⟩

/-- Typed rendering of the distinct ValueError messages raised by both
compilers. -/
inductive CircuitError where
  | duplicateGate (name : String)
  | undefinedSignal (sig gateName : String)
  | notGateArity (gateName : String)
  | xorGateArity (gateName : String)
  | xnorGateArity (gateName : String)
  | unsupportedType (t : String)
  | undefinedOutput (name : String)
  deriving DecidableEq

/-- Look up the formula already recorded for a signal; after the
defined-signal check succeeds the default branch is unreachable. -/
def sigExpr (em : List (String × BExpr)) (s : String) : BExpr :=
  (dlookup em s).getD (.var s)

/-- Build the formula for one gate from the formulas of its input
signals, with the defined-signal, arity and gate-type checks performed in
source order.  This construction is shared verbatim by the two compilers;
they differ only in what they do with the resulting formula. -/
def gateExprCore (em : List (String × BExpr)) (t : String) (g : Gate) : Except CircuitError BExpr :=
  if t = "AND" then .ok (mkAndList (g.inputs.map (sigExpr em)))
  else if t = "OR" then .ok (mkOrList (g.inputs.map (sigExpr em)))
  else if t = "NOT" then
    match g.inputs with
    | [s] => .ok (.notE (sigExpr em s))
    | _ => .error (.notGateArity g.name)
  else if t = "NAND" then .ok (.notE (mkAndList (g.inputs.map (sigExpr em))))
  else if t = "NOR" then .ok (.notE (mkOrList (g.inputs.map (sigExpr em))))
  else if t = "XOR" then
    match g.inputs with
    | [s1, s2] => .ok (.xorE (sigExpr em s1) (sigExpr em s2))
    | _ => .error (.xorGateArity g.name)
  else if t = "XNOR" then
    match g.inputs with
    | [s1, s2] => .ok (.notE (.xorE (sigExpr em s1) (sigExpr em s2)))
    | _ => .error (.xnorGateArity g.name)
  else .error (.unsupportedType t)

/-- Full per-gate compilation: the defined-signal check on the gate
inputs in order, then the type dispatch on the uppercased type string. -/
def gateExpr (em : List (String × BExpr)) (g : Gate) : Except CircuitError BExpr :=
  match g.inputs.find? (fun s => !(dlookup em s).isSome) with
  | some s => .error (.undefinedSignal s g.name)
  | none => gateExprCore em (strUpper g.type) g

/-- Map the declared outputs to their formulas, building the name-keyed
output dictionary; an output absent from the signal map is an error. -/
def mapOutputs (em : List (String × BExpr)) : List String → List (String × BExpr) → Except CircuitError (List (String × BExpr))
  | [], acc => .ok acc
  | out :: outs, acc =>
    match dlookup em out with
    | some e => mapOutputs em outs (dinsert acc out e)
    | none => .error (.undefinedOutput out)

/-- Record every input as its own variable, in order. -/
def inputsExprMap (inputs : List String) : List (String × BExpr) :=
  inputs.foldl (fun m inp => dinsert m inp (.var inp)) []

/-- Accumulate variable names, skipping names already declared; embeds
the idempotent declaration of oracle variables keyed by name. -/
def addVarNames (zs : List String) (l : List String) : List String :=
  l.foldl (fun zs0 inp => if zs0.contains inp then zs0 else zs0 ++ [inp]) zs

namespace CircuitEquivalence

/-- Gate loop of the inlined compiler: each gate maps directly to the
composed expression over the circuit inputs.  The duplicate-name check
consults only the gate names seen so far. -/
def processGates (em : List (String × BExpr)) (gateNames : List String) : List Gate → Except CircuitError (List (String × BExpr))
  | [] => .ok em
  | g :: gs =>
    if gateNames.contains g.name then .error (.duplicateGate g.name)
    else
      match gateExpr em g with
      | .error e => .error e
      | .ok e => processGates (dinsert em g.name e) (g.name :: gateNames) gs

/-- Inlined compilation of one circuit, returning the name-keyed output
dictionary.  The source also threads a shared variable pool and an unused
per-circuit name disambiguation string; only the input variables ever enter that
pool, and variables are identified by name here, so the pool needs no
separate state. -/
def build_z3_expr (c : Circuit) : Except CircuitError (List (String × BExpr)) :=
  match processGates (inputsExprMap c.inputs) [] c.gates with
  | .error e => .error e
  | .ok em => mapOutputs em c.outputs []

end CircuitEquivalence

/-- Enumeration of every assignment to a list of variable names; this is
the search space the oracle decides over, since the asserted formulas
mention no other variables. -/
def allAssignments : List String → List (List (String × Bool))
  | [] => [[]]
  | v :: vs =>
    ((allAssignments vs).map (fun a => (v, false) :: a))
      ++ ((allAssignments vs).map (fun a => (v, true) :: a))

/-- Total valuation read off a model, with completion: variables absent
from the model are given a fixed value. -/
def assignFun (a : List (String × Bool)) : String → Bool :=
  fun s => ((dlookup a s).getD false)

namespace CircuitEquivalence

/-- Outcome of the equivalence checker.  The source exits the process on
compilation errors (modelled by processExit), returns (False, None) on an
output-count mismatch, (True, None) when the miter is unsatisfiable and
(False, (assignment, diffs)) on a satisfying model. -/
inductive EquivResult where
  | processExit (code : Nat)
  | notEquivNoCex
  | equivalent
  | notEquiv (inputAssignment : List (String × Bool)) (differingOutputs : List (String × String × Bool × Bool))
  deriving DecidableEq

/-- Names of the oracle variables declared while compiling the two
circuits: the first circuit inputs followed by the second circuit inputs
not already declared. -/
def sharedVars (c1 c2 : Circuit) : List String :=
  addVarNames (addVarNames [] c1.inputs) c2.inputs

/-- Truth of the miter disjunction under one valuation: some positional
pair of compiled outputs evaluates differently. -/
def miterHolds (pairs : List ((String × BExpr) × (String × BExpr))) (σ : String → Bool) : Bool :=
  pairs.any (fun pq => pq.1.2.eval σ != pq.2.2.eval σ)

/-- Counterexample input assignment: the model restricted to the first
circuit declared inputs, skipping names never declared to the oracle. -/
def extractInputs (c1 : Circuit) (zvars : List String) (σ : String → Bool) : List (String × Bool) :=
  c1.inputs.foldl (fun acc v => if zvars.contains v then dinsert acc v (σ v) else acc) []

/-- Positional output pairs whose two compiled formulas evaluate to
different truth values under the model. -/
def diffOutputs (pairs : List ((String × BExpr) × (String × BExpr))) (σ : String → Bool) : List (String × String × Bool × Bool) :=
  pairs.filterMap (fun pq =>
    let v1 := pq.1.2.eval σ
    let v2 := pq.2.2.eval σ
    if v1 != v2 then some (pq.1.1, pq.2.1, v1, v2) else none)

/-- Equivalence check instrumented with the number of oracle
satisfiability queries performed. -/
def check_circuit_equivalenceT (c1 c2 : Circuit) : EquivResult × Nat :=
  match build_z3_expr c1 with
  | .error _ => (.processExit 1, 0)
  | .ok outputs1 =>
    match build_z3_expr c2 with
    | .error _ => (.processExit 1, 0)
    | .ok outputs2 =>
      if outputs1.length ≠ outputs2.length then (.notEquivNoCex, 0)
      else
        let pairs := outputs1.zip outputs2
        let zvars := sharedVars c1 c2
        match (allAssignments zvars).find? (fun a => miterHolds pairs (assignFun a)) with
        | some a => (.notEquiv (extractInputs c1 zvars (assignFun a)) (diffOutputs pairs (assignFun a)), 1)
        | none => (.equivalent, 1)

/-- Equivalence check as the caller sees it. -/
def check_circuit_equivalence (c1 c2 : Circuit) : EquivResult :=
  (check_circuit_equivalenceT c1 c2).1

/-- Predicate picking out the two result shapes the source reports as
not equivalent. -/
def isNotEquivalentResult : EquivResult → Bool
  | .notEquivNoCex => true
  | .notEquiv _ _ => true
  | _ => false

/-- Value of a named circuit output under a valuation, read from the
compiled output dictionary. -/
def outputVal (o : List (String × BExpr)) (n : String) (σ : String → Bool) : Bool :=
  (sigExpr o n).eval σ

/-- Truth, under one valuation, of a disagreement between the written
output lists of the two circuits paired positionally by name. -/
def namedMiterHolds (names1 names2 : List String) (o1 o2 : List (String × BExpr)) (σ : String → Bool) : Bool :=
  (names1.zip names2).any (fun nm => outputVal o1 nm.1 σ != outputVal o2 nm.2 σ)

/-- Positional agreement of the two written output lists under every
input valuation. -/
def namedMiterUnsat (c1 c2 : Circuit) (o1 o2 : List (String × BExpr)) : Prop :=
  ∀ σ : String → Bool, namedMiterHolds c1.outputs c2.outputs o1 o2 σ = false

end CircuitEquivalence

namespace CircuitEvaluator

/-- Gate loop of the constrained compiler: every gate output becomes a
fresh oracle variable named after the gate (reusing a variable of that
name when one was already declared, as the source does), the signal map
records that variable and the list of defining equalities grows by
(gate variable) = (gate formula). -/
def processGates (em : List (String × BExpr)) (gateNames : List String) (constraints : List (String × BExpr)) (zvars : List String) :
    List Gate → Except CircuitError (List (String × BExpr) × List (String × BExpr) × List String)
  | [] => .ok (em, constraints, zvars)
  | g :: gs =>
    if gateNames.contains g.name then .error (.duplicateGate g.name)
    else
      match gateExpr em g with
      | .error e => .error e
      | .ok e =>
        let zvars0 := if zvars.contains g.name then zvars else zvars ++ [g.name]
        processGates (dinsert em g.name (.var g.name)) (g.name :: gateNames) (constraints ++ [(g.name, e)]) zvars0 gs

/-- Constrained compilation of one circuit: the name-keyed output
dictionary, the gate-defining equalities (gate variable name paired with
its defining formula) and the declared oracle variable names. -/
def build_z3_expr (c : Circuit) : Except CircuitError (List (String × BExpr) × List (String × BExpr) × List String) :=
  match processGates (inputsExprMap c.inputs) [] [] (addVarNames [] c.inputs) c.gates with
  | .error e => .error e
  | .ok (em, constraints, zvars) =>
    match mapOutputs em c.outputs [] with
    | .error e => .error e
    | .ok outs => .ok (outs, constraints, zvars)

/-- Typed rendering of the distinct results validate_circuit returns:
the computed outputs on a satisfiable query, and the four distinct
failure messages. -/
inductive ValidateResult where
  | valid (outputs : List (String × Bool))
  | structuralFailure (e : CircuitError)
  | undefinedInput (name : String)
  | undefinedSignalName (name : String)
  | contradiction
  deriving DecidableEq

/-- Truth of everything the source asserts to the oracle: each
gate-defining equality, each input assignment and each signal
assignment. -/
def modelOk (constraints : List (String × BExpr)) (ia sa : List (String × Bool)) (σ : String → Bool) : Bool :=
  constraints.all (fun ce => σ ce.1 == ce.2.eval σ)
    && ia.all (fun p => σ p.1 == p.2)
    && sa.all (fun p => σ p.1 == p.2)

/-- Validation of a circuit against input and internal-signal
assignments: compile in constrained mode, reject assignments to unknown
names, then query the oracle and either read back every declared output
under the model or report the contradiction. -/
def validate_circuit (c : Circuit) (inputAssignments signalAssignments : List (String × Bool)) : ValidateResult :=
  match build_z3_expr c with
  | .error e => .structuralFailure e
  | .ok (outs, constraints, zvars) =>
    match inputAssignments.find? (fun p => !(c.inputs.contains p.1)) with
    | some p => .undefinedInput p.1
    | none =>
      match signalAssignments.find? (fun p => !(zvars.contains p.1)) with
      | some p => .undefinedSignalName p.1
      | none =>
        match (allAssignments zvars).find? (fun a => modelOk constraints inputAssignments signalAssignments (assignFun a)) with
        | some a =>
          .valid (c.outputs.foldl (fun acc out => dinsert acc out ((sigExpr outs out).eval (assignFun a))) [])
        | none => .contradiction

end CircuitEvaluator

/-- Names surviving a python-dict keyed insertion pass: the first
occurrence of each name is kept, later occurrences are collapsed onto
it.  The seen argument lists names already present as keys. -/
def firstDedupAux (seen : List String) : List String → List String
  | [] => []
  | x :: xs => if seen.contains x then firstDedupAux seen xs else x :: firstDedupAux (seen ++ [x]) xs

/-- Distinct names of a list in first-occurrence order; this is the key
sequence of a python dict built by inserting the list in order. -/
def firstDedup (l : List String) : List String := firstDedupAux [] l

/-- Check that a counterexample assignment mentions only names declared
as inputs of the given circuit. -/
def inputsOnly (c : Circuit) (ia : List (String × Bool)) : Bool :=
  ia.all (fun p => c.inputs.contains p.1)

/-- Output dictionary read directly off an input assignment: each
declared output name mapped to the value the assignment gives it. -/
def outputValuesFrom (outputs : List String) (ia : List (String × Bool)) : List (String × Bool) :=
  outputs.foldl (fun acc out => dinsert acc out ((dlookup ia out).getD false)) []

/-- Joint unsatisfiability of the gate-defining constraints with the
input and signal assignments: no valuation satisfies everything the
validator asserts to the oracle. -/
def jointlyUnsat (constraints : List (String × BExpr)) (ia sa : List (String × Bool)) : Prop :=
  ∀ σ : String → Bool, CircuitEvaluator.modelOk constraints ia sa σ = false

section DictLemmas

variable {α : Type}

theorem dlookup_dinsert_self (d : List (String × α)) (k : String) (v : α) :
    dlookup (dinsert d k v) k = some v := by
  induction d with
  | nil => simp [dinsert, dlookup]
  | cons p rest ih =>
    by_cases h : p.1 = k
    · simp [dinsert, dlookup, h]
    · simp [dinsert, dlookup, h, ih]

theorem dlookup_dinsert_ne (d : List (String × α)) (k k' : String) (v : α) (h : k' ≠ k) :
    dlookup (dinsert d k v) k' = dlookup d k' := by
  have hne : k ≠ k' := fun hk => h hk.symm
  induction d with
  | nil => simp [dinsert, dlookup, hne]
  | cons p rest ih =>
    by_cases hp : p.1 = k
    · simp [dinsert, dlookup, hp, hne]
    · simp [dinsert, dlookup, hp, ih]

theorem keys_dinsert (d : List (String × α)) (k : String) (v : α) :
    (dinsert d k v).map Prod.fst =
      if k ∈ d.map Prod.fst then d.map Prod.fst else d.map Prod.fst ++ [k] := by
  induction d with
  | nil => simp [dinsert]
  | cons p rest ih =>
    by_cases h : p.1 = k
    · simp [dinsert, h]
    · by_cases hr : k ∈ rest.map Prod.fst
      · simp [dinsert, h, ih, hr, Ne.symm h]
      · simp [dinsert, h, ih, hr, Ne.symm h]

theorem mem_dinsert {d : List (String × α)} {k : String} {v : α} {p : String × α}
    (h : p ∈ dinsert d k v) : p ∈ d ∨ p = (k, v) := by
  induction d with
  | nil => simpa [dinsert] using h
  | cons q rest ih =>
    by_cases hq : q.1 = k
    · simp only [dinsert, if_pos hq] at h
      rcases List.mem_cons.1 h with h | h
      · right; rw [h, ← hq]
      · left; exact List.mem_cons_of_mem _ h
    · simp only [dinsert, if_neg hq] at h
      rcases List.mem_cons.1 h with h | h
      · left; simp [h]
      · rcases ih h with h | h
        · left; exact List.mem_cons_of_mem _ h
        · right; exact h

theorem dlookup_mem {d : List (String × α)} {k : String} {v : α} :
    dlookup d k = some v → (k, v) ∈ d := by
  induction d with
  | nil => intro h; simp [dlookup] at h
  | cons p rest ih =>
    intro h
    by_cases hp : p.1 = k
    · simp only [dlookup, if_pos hp] at h
      obtain ⟨pk, pv⟩ := p
      injection h with h2
      subst h2
      subst hp
      exact List.mem_cons_self _ _
    · simp only [dlookup, if_neg hp] at h
      exact List.mem_cons_of_mem _ (ih h)

theorem dlookup_of_mem_nodup {d : List (String × α)} {k : String} {v : α}
    (hnd : (d.map Prod.fst).Nodup) (h : (k, v) ∈ d) : dlookup d k = some v := by
  induction d with
  | nil => simp at h
  | cons p rest ih =>
    rcases List.mem_cons.1 h with h | h
    · simp [dlookup, ← h]
    · have hk : p.1 ≠ k := by
        intro hk
        have : p.1 ∈ rest.map Prod.fst := hk ▸ List.mem_map_of_mem Prod.fst h
        exact (List.nodup_cons.1 hnd).1 this
      simp [dlookup, hk, ih (List.nodup_cons.1 hnd).2 h]

theorem dlookup_isSome_iff {d : List (String × α)} {k : String} :
    (dlookup d k).isSome = true ↔ k ∈ d.map Prod.fst := by
  induction d with
  | nil => simp [dlookup]
  | cons p rest ih =>
    by_cases hp : p.1 = k
    · simp [dlookup, hp]
    · simp only [dlookup, if_neg hp]
      rw [ih]
      simp [List.mem_cons, Ne.symm hp]

theorem foldl_dinsert_lookup (g : String → α) (l : List String) (acc : List (String × α)) (k : String) :
    dlookup (l.foldl (fun m x => dinsert m x (g x)) acc) k =
      if k ∈ l then some (g k) else dlookup acc k := by
  induction l generalizing acc with
  | nil => simp
  | cons x xs ih =>
    simp only [List.foldl_cons]
    rw [ih]
    by_cases hxs : k ∈ xs
    · simp [hxs]
    · by_cases hx : k = x
      · subst hx
        simp [hxs, dlookup_dinsert_self]
      · simp [hxs, hx, dlookup_dinsert_ne _ _ _ _ hx]

theorem mem_foldl_dinsert {g : String → α} {p : String × α} :
    ∀ (l : List String) (acc : List (String × α)),
      p ∈ l.foldl (fun m x => dinsert m x (g x)) acc → p ∈ acc ∨ ∃ x ∈ l, p = (x, g x) := by
  intro l
  induction l with
  | nil => intro acc h; exact Or.inl h
  | cons x xs ih =>
    intro acc h
    rcases ih (dinsert acc x (g x)) h with h | h
    · rcases mem_dinsert h with h | h
      · exact Or.inl h
      · exact Or.inr ⟨x, by simp, h⟩
    · rcases h with ⟨y, hy, hp⟩
      exact Or.inr ⟨y, List.mem_cons_of_mem _ hy, hp⟩

end DictLemmas

theorem dlookup_inputsExprMap (l : List String) (k : String) :
    dlookup (inputsExprMap l) k = if k ∈ l then some (.var k) else none := by
  simpa [inputsExprMap] using foldl_dinsert_lookup (fun x => BExpr.var x) l [] k

theorem mem_inputsExprMap {l : List String} {p : String × BExpr}
    (h : p ∈ inputsExprMap l) : p.1 ∈ l ∧ p.2 = .var p.1 := by
  rcases mem_foldl_dinsert l [] h with h | ⟨x, hx, hp⟩
  · simp at h
  · constructor
    · rw [hp]; exact hx
    · rw [hp]

theorem mem_addVarNames (l zs : List String) (k : String) :
    k ∈ addVarNames zs l ↔ k ∈ zs ∨ k ∈ l := by
  induction l generalizing zs with
  | nil => simp [addVarNames]
  | cons x xs ih =>
    rw [show addVarNames zs (x :: xs) = addVarNames (if zs.contains x then zs else zs ++ [x]) xs from rfl, ih]
    by_cases hx : zs.contains x
    · have hxz : x ∈ zs := by simpa using hx
      rw [if_pos hx]
      constructor
      · rintro (h | h)
        · exact Or.inl h
        · exact Or.inr (List.mem_cons_of_mem _ h)
      · rintro (h | h)
        · exact Or.inl h
        · rcases List.mem_cons.1 h with rfl | h
          · exact Or.inl hxz
          · exact Or.inr h
    · rw [if_neg hx]
      simp only [List.mem_append, List.mem_singleton, List.mem_cons]
      tauto

theorem allAssignments_complete (vars : List String) (f : String → Bool) :
    ∃ a ∈ allAssignments vars, ∀ v ∈ vars, assignFun a v = f v := by
  induction vars with
  | nil => exact ⟨[], by simp [allAssignments], by simp⟩
  | cons v vs ih =>
    rcases ih with ⟨a, ha, hagree⟩
    refine ⟨(v, f v) :: a, ?_, ?_⟩
    · cases hfv : f v
      · exact List.mem_append_left _ (List.mem_map_of_mem _ ha)
      · exact List.mem_append_right _ (List.mem_map_of_mem _ ha)
    · intro w hw
      by_cases hwv : v = w
      · simp [assignFun, dlookup, hwv]
      · have hw' : w ∈ vs := by
          rcases List.mem_cons.1 hw with h | h
          · exact absurd h.symm hwv
          · exact h
        simp only [assignFun, dlookup, if_neg hwv]
        exact hagree w hw'

theorem eval_congr {S : List String} {σ σ' : String → Bool}
    (hagree : ∀ s ∈ S, σ s = σ' s) :
    ∀ {e : BExpr}, e.varsIn S = true → e.eval σ = e.eval σ' := by
  intro e
  induction e with
  | var s => intro h; exact hagree s (by simpa [BExpr.varsIn] using h)
  | trueConst => intro _; rfl
  | falseConst => intro _; rfl
  | andE a b iha ihb =>
    intro h
    simp only [BExpr.varsIn, Bool.and_eq_true] at h
    simp [BExpr.eval, iha h.1, ihb h.2]
  | orE a b iha ihb =>
    intro h
    simp only [BExpr.varsIn, Bool.and_eq_true] at h
    simp [BExpr.eval, iha h.1, ihb h.2]
  | notE a iha =>
    intro h
    simp only [BExpr.varsIn] at h
    simp [BExpr.eval, iha h]
  | xorE a b iha ihb =>
    intro h
    simp only [BExpr.varsIn, Bool.and_eq_true] at h
    simp [BExpr.eval, iha h.1, ihb h.2]

theorem varsIn_mono {S T : List String} (hsub : ∀ s ∈ S, s ∈ T) :
    ∀ {e : BExpr}, e.varsIn S = true → e.varsIn T = true := by
  intro e
  induction e with
  | var s =>
    intro h
    simp only [BExpr.varsIn, List.contains_iff_exists_mem_beq] at *
    rcases h with ⟨a, ha, hb⟩
    exact ⟨a, hsub a ha, hb⟩
  | trueConst => intro h; exact h
  | falseConst => intro h; exact h
  | andE a b iha ihb =>
    intro h
    simp only [BExpr.varsIn, Bool.and_eq_true] at *
    exact ⟨iha h.1, ihb h.2⟩
  | orE a b iha ihb =>
    intro h
    simp only [BExpr.varsIn, Bool.and_eq_true] at *
    exact ⟨iha h.1, ihb h.2⟩
  | notE a iha => intro h; exact iha h
  | xorE a b iha ihb =>
    intro h
    simp only [BExpr.varsIn, Bool.and_eq_true] at *
    exact ⟨iha h.1, ihb h.2⟩

theorem varsIn_mkAndList {S : List String} {es : List BExpr}
    (h : ∀ e ∈ es, e.varsIn S = true) : (mkAndList es).varsIn S = true := by
  induction es with
  | nil => rfl
  | cons e es ih =>
    simp only [mkAndList, List.foldr_cons]
    simp only [BExpr.varsIn, Bool.and_eq_true]
    exact ⟨h e (by simp), ih (fun e0 he0 => h e0 (List.mem_cons_of_mem _ he0))⟩

theorem varsIn_mkOrList {S : List String} {es : List BExpr}
    (h : ∀ e ∈ es, e.varsIn S = true) : (mkOrList es).varsIn S = true := by
  induction es with
  | nil => rfl
  | cons e es ih =>
    simp only [mkOrList, List.foldr_cons]
    simp only [BExpr.varsIn, Bool.and_eq_true]
    exact ⟨h e (by simp), ih (fun e0 he0 => h e0 (List.mem_cons_of_mem _ he0))⟩

theorem any_congr {α : Type} {p q : α → Bool} :
    ∀ {l : List α}, (∀ x ∈ l, p x = q x) → l.any p = l.any q := by
  intro l
  induction l with
  | nil => intro _; rfl
  | cons x xs ih =>
    intro h
    simp only [List.any_cons]
    rw [h x (by simp), ih (fun y hy => h y (List.mem_cons_of_mem _ hy))]

theorem sigExpr_varsIn {em : List (String × BExpr)} {S : List String} {s : String}
    (hem : ∀ p ∈ em, p.2.varsIn S = true) (hs : (dlookup em s).isSome = true) :
    (sigExpr em s).varsIn S = true := by
  rcases Option.isSome_iff_exists.1 hs with ⟨e, he⟩
  have := hem (s, e) (dlookup_mem he)
  simpa [sigExpr, he] using this

theorem gateExprCore_ok_varsIn {em : List (String × BExpr)} {t : String} {g : Gate} {e : BExpr}
    {S : List String}
    (hem : ∀ p ∈ em, p.2.varsIn S = true)
    (hdef : ∀ s ∈ g.inputs, (dlookup em s).isSome = true)
    (h : gateExprCore em t g = .ok e) : e.varsIn S = true := by
  have hmapped : ∀ e0 ∈ g.inputs.map (sigExpr em), e0.varsIn S = true := by
    intro e0 he0
    rcases List.mem_map.1 he0 with ⟨s, hs, rfl⟩
    exact sigExpr_varsIn hem (hdef s hs)
  unfold gateExprCore at h
  split_ifs at h
  · cases h
    exact varsIn_mkAndList hmapped
  · cases h
    exact varsIn_mkOrList hmapped
  · rcases hgi : g.inputs with _ | ⟨s, _ | ⟨s2, rest⟩⟩ <;> rw [hgi] at h <;> cases h
    have hs : s ∈ g.inputs := by rw [hgi]; simp
    exact sigExpr_varsIn hem (hdef s hs)
  · cases h
    exact varsIn_mkAndList hmapped
  · cases h
    exact varsIn_mkOrList hmapped
  · rcases hgi : g.inputs with _ | ⟨s1, _ | ⟨s2, _ | ⟨s3, rest⟩⟩⟩ <;> rw [hgi] at h <;> cases h
    have hs1 : s1 ∈ g.inputs := by rw [hgi]; simp
    have hs2 : s2 ∈ g.inputs := by rw [hgi]; simp
    simp only [BExpr.varsIn, Bool.and_eq_true]
    exact ⟨sigExpr_varsIn hem (hdef s1 hs1), sigExpr_varsIn hem (hdef s2 hs2)⟩
  · rcases hgi : g.inputs with _ | ⟨s1, _ | ⟨s2, _ | ⟨s3, rest⟩⟩⟩ <;> rw [hgi] at h <;> cases h
    have hs1 : s1 ∈ g.inputs := by rw [hgi]; simp
    have hs2 : s2 ∈ g.inputs := by rw [hgi]; simp
    simp only [BExpr.varsIn, Bool.and_eq_true]
    exact ⟨sigExpr_varsIn hem (hdef s1 hs1), sigExpr_varsIn hem (hdef s2 hs2)⟩

theorem gateExpr_ok_varsIn {em : List (String × BExpr)} {g : Gate} {e : BExpr} {S : List String}
    (hem : ∀ p ∈ em, p.2.varsIn S = true) (h : gateExpr em g = .ok e) :
    e.varsIn S = true := by
  unfold gateExpr at h
  cases hfind : g.inputs.find? (fun s => !(dlookup em s).isSome) with
  | some s => rw [hfind] at h; cases h
  | none =>
    rw [hfind] at h
    have hdef : ∀ s ∈ g.inputs, (dlookup em s).isSome = true := by
      intro s hs
      have h2 := List.find?_eq_none.1 hfind s hs
      exact Option.ne_none_iff_isSome.1 (by simpa using h2)
    exact gateExprCore_ok_varsIn hem hdef h

theorem gateExprCore_ne_dup {em : List (String × BExpr)} {t : String} {g : Gate} {n : String} :
    gateExprCore em t g ≠ .error (.duplicateGate n) := by
  intro h
  unfold gateExprCore at h
  split_ifs at h <;>
    first
      | cases h
      | (rcases hgi : g.inputs with _ | ⟨s1, _ | ⟨s2, _ | ⟨s3, rest⟩⟩⟩ <;> rw [hgi] at h <;> cases h)

theorem gateExpr_ne_dup {em : List (String × BExpr)} {g : Gate} {n : String} :
    gateExpr em g ≠ .error (.duplicateGate n) := by
  intro h
  unfold gateExpr at h
  cases hfind : g.inputs.find? (fun s => !(dlookup em s).isSome) with
  | some s => rw [hfind] at h; cases h
  | none => rw [hfind] at h; exact gateExprCore_ne_dup h

theorem mapOutputs_vals {P : BExpr → Prop} {em : List (String × BExpr)} :
    ∀ {outs : List String} {acc res : List (String × BExpr)},
      mapOutputs em outs acc = .ok res →
      (∀ p ∈ em, P p.2) → (∀ p ∈ acc, P p.2) → ∀ p ∈ res, P p.2 := by
  intro outs
  induction outs with
  | nil =>
    intro acc res h hem hacc
    cases h
    exact hacc
  | cons out outs ih =>
    intro acc res h hem hacc
    simp only [mapOutputs] at h
    cases hlk : dlookup em out with
    | none => rw [hlk] at h; cases h
    | some e =>
      rw [hlk] at h
      refine ih h hem ?_
      intro p hp
      rcases mem_dinsert hp with hp | hp
      · exact hacc p hp
      · rw [hp]
        exact hem (out, e) (dlookup_mem hlk)

theorem mapOutputs_keys {em : List (String × BExpr)} :
    ∀ {outs : List String} {acc res : List (String × BExpr)},
      mapOutputs em outs acc = .ok res →
      res.map Prod.fst = acc.map Prod.fst ++ firstDedupAux (acc.map Prod.fst) outs := by
  intro outs
  induction outs with
  | nil =>
    intro acc res h
    cases h
    simp [firstDedupAux]
  | cons out outs ih =>
    intro acc res h
    simp only [mapOutputs] at h
    cases hlk : dlookup em out with
    | none => rw [hlk] at h; cases h
    | some e =>
      rw [hlk] at h
      rw [ih h, keys_dinsert]
      by_cases hmem : out ∈ acc.map Prod.fst
      · have hc : (acc.map Prod.fst).contains out = true := by simpa using hmem
        simp [firstDedupAux, hmem, hc]
      · have hc : (acc.map Prod.fst).contains out = false := by simpa using hmem
        simp [firstDedupAux, hmem, hc, keys_dinsert]

theorem mapOutputs_lookup {em : List (String × BExpr)} :
    ∀ {outs : List String} {acc res : List (String × BExpr)},
      mapOutputs em outs acc = .ok res →
      ∀ k, dlookup res k = if k ∈ outs then dlookup em k else dlookup acc k := by
  intro outs
  induction outs with
  | nil =>
    intro acc res h k
    cases h
    simp
  | cons out outs ih =>
    intro acc res h k
    simp only [mapOutputs] at h
    cases hlk : dlookup em out with
    | none => rw [hlk] at h; cases h
    | some e =>
      rw [hlk] at h
      rw [ih h k]
      by_cases ho : k ∈ outs
      · simp [ho, List.mem_cons]
      · by_cases hk : k = out
        · subst hk
          simp [ho, dlookup_dinsert_self, hlk]
        · simp [ho, hk, dlookup_dinsert_ne _ _ _ _ hk]

theorem mapOutputs_ok_of_defined {em : List (String × BExpr)} :
    ∀ {outs : List String} (acc : List (String × BExpr)),
      (∀ out ∈ outs, (dlookup em out).isSome = true) →
      ∃ res, mapOutputs em outs acc = .ok res := by
  intro outs
  induction outs with
  | nil => intro acc _; exact ⟨acc, rfl⟩
  | cons out outs ih =>
    intro acc hdef
    rcases Option.isSome_iff_exists.1 (hdef out (by simp)) with ⟨e, he⟩
    rcases ih (dinsert acc out e) (fun o ho => hdef o (List.mem_cons_of_mem _ ho)) with ⟨res, hres⟩
    exact ⟨res, by simp only [mapOutputs, he]; exact hres⟩

theorem mapOutputs_ne_dup {em : List (String × BExpr)} {n : String} :
    ∀ {outs : List String} {acc : List (String × BExpr)},
      mapOutputs em outs acc ≠ .error (.duplicateGate n) := by
  intro outs
  induction outs with
  | nil => intro acc h; cases h
  | cons out outs ih =>
    intro acc h
    simp only [mapOutputs] at h
    cases hlk : dlookup em out with
    | none => rw [hlk] at h; cases h
    | some e => rw [hlk] at h; exact ih h

theorem firstDedupAux_of_nodup :
    ∀ {l seen : List String}, l.Nodup → (∀ x ∈ l, x ∉ seen) → firstDedupAux seen l = l := by
  intro l
  induction l with
  | nil => intro seen _ _; rfl
  | cons x xs ih =>
    intro seen hnd hdisj
    have hx : ¬ seen.contains x = true := by
      simp only [List.contains_iff_exists_mem_beq]
      rintro ⟨a, ha, hab⟩
      have : x = a := by simpa using hab
      exact hdisj x (by simp) (this ▸ ha)
    rw [firstDedupAux, if_neg hx]
    congr 1
    refine ih (List.nodup_cons.1 hnd).2 ?_
    intro y hy
    simp only [List.mem_append, List.mem_singleton]
    rintro (h | h)
    · exact hdisj y (List.mem_cons_of_mem _ hy) h
    · exact (List.nodup_cons.1 hnd).1 (h ▸ hy)

theorem firstDedup_of_nodup {l : List String} (h : l.Nodup) : firstDedup l = l :=
  firstDedupAux_of_nodup h (by simp)

theorem equivProcessGates_ok_varsIn {S : List String} :
    ∀ {gs : List Gate} {em : List (String × BExpr)} {gn : List String} {em' : List (String × BExpr)},
      CircuitEquivalence.processGates em gn gs = .ok em' →
      (∀ p ∈ em, p.2.varsIn S = true) → ∀ p ∈ em', p.2.varsIn S = true := by
  intro gs
  induction gs with
  | nil =>
    intro em gn em' h hem
    cases h
    exact hem
  | cons g gs ih =>
    intro em gn em' h hem
    simp only [CircuitEquivalence.processGates] at h
    by_cases hc : gn.contains g.name
    · rw [if_pos hc] at h; cases h
    · rw [if_neg hc] at h
      cases hge : gateExpr em g with
      | error e => rw [hge] at h; cases h
      | ok e =>
        rw [hge] at h
        refine ih h ?_
        intro p hp
        rcases mem_dinsert hp with hp | hp
        · exact hem p hp
        · rw [hp]
          exact gateExpr_ok_varsIn hem hge

theorem equivProcessGates_dup_error :
    ∀ {gs : List Gate} {em : List (String × BExpr)} {gn : List String},
      (¬ (gs.map Gate.name).Nodup ∨ ∃ n, n ∈ gs.map Gate.name ∧ n ∈ gn) →
      ∃ e, CircuitEquivalence.processGates em gn gs = .error e := by
  intro gs
  induction gs with
  | nil =>
    intro em gn h
    rcases h with h | ⟨n, hn, _⟩
    · exact absurd List.nodup_nil h
    · simp at hn
  | cons g gs ih =>
    intro em gn h
    by_cases hc : gn.contains g.name
    · exact ⟨.duplicateGate g.name, by simp only [CircuitEquivalence.processGates, if_pos hc]⟩
    · cases hge : gateExpr em g with
      | error e =>
        exact ⟨e, by simp only [CircuitEquivalence.processGates, if_neg hc, hge]⟩
      | ok e =>
        have hrec : (¬ (gs.map Gate.name).Nodup ∨ ∃ n, n ∈ gs.map Gate.name ∧ n ∈ g.name :: gn) := by
          rcases h with h | ⟨n, hn, hgn⟩
          · simp only [List.map_cons, List.nodup_cons, not_and_or] at h
            rcases h with h | h
            · push_neg at h
              exact Or.inr ⟨g.name, h, by simp⟩
            · exact Or.inl h
          · rcases List.mem_cons.1 hn with rfl | hn
            · exact absurd (by simpa using hgn) hc
            · exact Or.inr ⟨n, hn, List.mem_cons_of_mem _ hgn⟩
        rcases @ih (dinsert em g.name e) (g.name :: gn) hrec with ⟨e0, he0⟩
        exact ⟨e0, by simp only [CircuitEquivalence.processGates, if_neg hc, hge, he0]⟩

theorem equivProcessGates_no_dup :
    ∀ {gs : List Gate} {em : List (String × BExpr)} {gn : List String} {n : String},
      (gs.map Gate.name).Nodup → (∀ m ∈ gs.map Gate.name, m ∉ gn) →
      CircuitEquivalence.processGates em gn gs ≠ .error (.duplicateGate n) := by
  intro gs
  induction gs with
  | nil => intro em gn n _ _ h; cases h
  | cons g gs ih =>
    intro em gn n hnd hdisj h
    have hc : ¬ gn.contains g.name = true := by
      simp only [List.contains_iff_exists_mem_beq]
      rintro ⟨a, ha, hab⟩
      have : g.name = a := by simpa using hab
      exact hdisj g.name (by simp) (this ▸ ha)
    simp only [CircuitEquivalence.processGates, if_neg hc] at h
    cases hge : gateExpr em g with
    | error e =>
      rw [hge] at h
      injection h with h2
      exact gateExpr_ne_dup (h2 ▸ hge)
    | ok e =>
      rw [hge] at h
      refine ih (List.nodup_cons.1 (by simpa using hnd)).2 ?_ h
      intro m hm
      simp only [List.mem_cons, not_or]
      constructor
      · intro hmg
        exact (List.nodup_cons.1 (by simpa using hnd)).1 (hmg ▸ hm)
      · exact hdisj m (List.mem_cons_of_mem _ hm)

theorem inputsExprMap_varsIn {inputs : List String} :
    ∀ p ∈ inputsExprMap inputs, (p.2).varsIn inputs = true := by
  intro p hp
  rcases mem_inputsExprMap hp with ⟨h1, h2⟩
  rw [h2]
  simpa [BExpr.varsIn] using h1

theorem equivBuild_ok_varsIn {c : Circuit} {o : List (String × BExpr)}
    (h : CircuitEquivalence.build_z3_expr c = .ok o) :
    ∀ p ∈ o, p.2.varsIn c.inputs = true := by
  unfold CircuitEquivalence.build_z3_expr at h
  cases hpg : CircuitEquivalence.processGates (inputsExprMap c.inputs) [] c.gates with
  | error e => rw [hpg] at h; cases h
  | ok em =>
    rw [hpg] at h
    have hem := equivProcessGates_ok_varsIn hpg inputsExprMap_varsIn
    exact @mapOutputs_vals (fun e0 => e0.varsIn c.inputs = true) em c.outputs [] o h hem (by simp)

theorem equivBuild_ok_keys {c : Circuit} {o : List (String × BExpr)}
    (h : CircuitEquivalence.build_z3_expr c = .ok o) :
    o.map Prod.fst = firstDedup c.outputs := by
  unfold CircuitEquivalence.build_z3_expr at h
  cases hpg : CircuitEquivalence.processGates (inputsExprMap c.inputs) [] c.gates with
  | error e => rw [hpg] at h; cases h
  | ok em =>
    rw [hpg] at h
    simpa [firstDedup] using mapOutputs_keys h

theorem equivBuild_dup_error {c : Circuit}
    (h : ¬ (c.gates.map Gate.name).Nodup) :
    ∃ e, CircuitEquivalence.build_z3_expr c = .error e := by
  rcases @equivProcessGates_dup_error c.gates (inputsExprMap c.inputs) [] (Or.inl h) with ⟨e, he⟩
  exact ⟨e, by simp [CircuitEquivalence.build_z3_expr, he]⟩

theorem equivBuild_no_dup {c : Circuit} {n : String}
    (h : (c.gates.map Gate.name).Nodup) :
    CircuitEquivalence.build_z3_expr c ≠ .error (.duplicateGate n) := by
  intro hb
  unfold CircuitEquivalence.build_z3_expr at hb
  cases hpg : CircuitEquivalence.processGates (inputsExprMap c.inputs) [] c.gates with
  | error e =>
    rw [hpg] at hb
    injection hb with h2
    exact equivProcessGates_no_dup h (by simp) (h2 ▸ hpg)
  | ok em =>
    rw [hpg] at hb
    exact mapOutputs_ne_dup hb

theorem evalProcessGates_dup_error :
    ∀ {gs : List Gate} {em : List (String × BExpr)} {gn : List String}
      {cs : List (String × BExpr)} {zv : List String},
      (¬ (gs.map Gate.name).Nodup ∨ ∃ n, n ∈ gs.map Gate.name ∧ n ∈ gn) →
      ∃ e, CircuitEvaluator.processGates em gn cs zv gs = .error e := by
  intro gs
  induction gs with
  | nil =>
    intro em gn cs zv h
    rcases h with h | ⟨n, hn, _⟩
    · exact absurd List.nodup_nil h
    · simp at hn
  | cons g gs ih =>
    intro em gn cs zv h
    by_cases hc : gn.contains g.name
    · exact ⟨.duplicateGate g.name, by simp only [CircuitEvaluator.processGates, if_pos hc]⟩
    · cases hge : gateExpr em g with
      | error e =>
        exact ⟨e, by simp only [CircuitEvaluator.processGates, if_neg hc, hge]⟩
      | ok e =>
        have hrec : (¬ (gs.map Gate.name).Nodup ∨ ∃ n, n ∈ gs.map Gate.name ∧ n ∈ g.name :: gn) := by
          rcases h with h | ⟨n, hn, hgn⟩
          · simp only [List.map_cons, List.nodup_cons, not_and_or] at h
            rcases h with h | h
            · push_neg at h
              exact Or.inr ⟨g.name, h, by simp⟩
            · exact Or.inl h
          · rcases List.mem_cons.1 hn with rfl | hn
            · exact absurd (by simpa using hgn) hc
            · exact Or.inr ⟨n, hn, List.mem_cons_of_mem _ hgn⟩
        rcases @ih (dinsert em g.name (.var g.name)) (g.name :: gn) (cs ++ [(g.name, e)])
          (if zv.contains g.name then zv else zv ++ [g.name]) hrec with ⟨e0, he0⟩
        exact ⟨e0, by simp only [CircuitEvaluator.processGates, if_neg hc, hge, he0]⟩

theorem evalProcessGates_no_dup :
    ∀ {gs : List Gate} {em : List (String × BExpr)} {gn : List String}
      {cs : List (String × BExpr)} {zv : List String} {n : String},
      (gs.map Gate.name).Nodup → (∀ m ∈ gs.map Gate.name, m ∉ gn) →
      CircuitEvaluator.processGates em gn cs zv gs ≠ .error (.duplicateGate n) := by
  intro gs
  induction gs with
  | nil => intro em gn cs zv n _ _ h; cases h
  | cons g gs ih =>
    intro em gn cs zv n hnd hdisj h
    have hc : ¬ gn.contains g.name = true := by
      simp only [List.contains_iff_exists_mem_beq]
      rintro ⟨a, ha, hab⟩
      have : g.name = a := by simpa using hab
      exact hdisj g.name (by simp) (this ▸ ha)
    simp only [CircuitEvaluator.processGates, if_neg hc] at h
    cases hge : gateExpr em g with
    | error e =>
      rw [hge] at h
      injection h with h2
      exact gateExpr_ne_dup (h2 ▸ hge)
    | ok e =>
      rw [hge] at h
      refine ih (List.nodup_cons.1 (by simpa using hnd)).2 ?_ h
      intro m hm
      simp only [List.mem_cons, not_or]
      constructor
      · intro hmg
        exact (List.nodup_cons.1 (by simpa using hnd)).1 (hmg ▸ hm)
      · exact hdisj m (List.mem_cons_of_mem _ hm)

theorem evalBuild_dup_error {c : Circuit}
    (h : ¬ (c.gates.map Gate.name).Nodup) :
    ∃ e, CircuitEvaluator.build_z3_expr c = .error e := by
  rcases @evalProcessGates_dup_error c.gates (inputsExprMap c.inputs) [] []
    (addVarNames [] c.inputs) (Or.inl h) with ⟨e, he⟩
  exact ⟨e, by simp [CircuitEvaluator.build_z3_expr, he]⟩

theorem evalBuild_no_dup {c : Circuit} {n : String}
    (h : (c.gates.map Gate.name).Nodup) :
    CircuitEvaluator.build_z3_expr c ≠ .error (.duplicateGate n) := by
  intro hb
  unfold CircuitEvaluator.build_z3_expr at hb
  cases hpg : CircuitEvaluator.processGates (inputsExprMap c.inputs) [] [] (addVarNames [] c.inputs) c.gates with
  | error e =>
    rw [hpg] at hb
    injection hb with h2
    exact evalProcessGates_no_dup h (by simp) (h2 ▸ hpg)
  | ok st =>
    rw [hpg] at hb
    obtain ⟨em, cs, zv⟩ := st
    simp only at hb
    cases hmo : mapOutputs em c.outputs [] with
    | error e =>
      simp only [hmo] at hb
      injection hb with h2
      exact mapOutputs_ne_dup (h2 ▸ hmo)
    | ok outs =>
      simp only [hmo] at hb
      cases hb

theorem miterHolds_congr {S : List String} {σ σ' : String → Bool}
    {pairs : List ((String × BExpr) × (String × BExpr))}
    (hv : ∀ pq ∈ pairs, pq.1.2.varsIn S = true ∧ pq.2.2.varsIn S = true)
    (hagree : ∀ s ∈ S, σ s = σ' s) :
    CircuitEquivalence.miterHolds pairs σ = CircuitEquivalence.miterHolds pairs σ' := by
  unfold CircuitEquivalence.miterHolds
  refine any_congr ?_
  intro pq hpq
  rw [eval_congr hagree (hv pq hpq).1, eval_congr hagree (hv pq hpq).2]

theorem miterHolds_zip_self (o : List (String × BExpr)) (σ : String → Bool) :
    CircuitEquivalence.miterHolds (o.zip o) σ = false := by
  induction o with
  | nil => rfl
  | cons p rest ih =>
    simp only [List.zip_cons_cons, CircuitEquivalence.miterHolds, List.any_cons] at *
    simp [ih]

theorem namedMiter_eq_miter {σ : String → Bool} :
    ∀ {o1 o2 : List (String × BExpr)},
      (o1.map Prod.fst).Nodup → (o2.map Prod.fst).Nodup →
      CircuitEquivalence.namedMiterHolds (o1.map Prod.fst) (o2.map Prod.fst) o1 o2 σ =
        CircuitEquivalence.miterHolds (o1.zip o2) σ := by
  intro o1
  induction o1 with
  | nil => intro o2 _ _; rfl
  | cons p r1 ih =>
    intro o2 h1 h2
    cases o2 with
    | nil => rfl
    | cons q r2 =>
      rcases p with ⟨k1, e1⟩
      rcases q with ⟨k2, e2⟩
      simp only [List.map_cons] at h1 h2
      have hn1 := List.nodup_cons.1 h1
      have hn2 := List.nodup_cons.1 h2
      unfold CircuitEquivalence.namedMiterHolds CircuitEquivalence.miterHolds
      simp only [List.map_cons, List.zip_cons_cons, List.any_cons]
      have hhead : CircuitEquivalence.outputVal ((k1, e1) :: r1) k1 σ = e1.eval σ := by
        simp [CircuitEquivalence.outputVal, sigExpr, dlookup]
      have hhead2 : CircuitEquivalence.outputVal ((k2, e2) :: r2) k2 σ = e2.eval σ := by
        simp [CircuitEquivalence.outputVal, sigExpr, dlookup]
      rw [hhead, hhead2]
      congr 1
      have htail : ((r1.map Prod.fst).zip (r2.map Prod.fst)).any
          (fun nm => CircuitEquivalence.outputVal ((k1, e1) :: r1) nm.1 σ !=
            CircuitEquivalence.outputVal ((k2, e2) :: r2) nm.2 σ) =
          ((r1.map Prod.fst).zip (r2.map Prod.fst)).any
          (fun nm => CircuitEquivalence.outputVal r1 nm.1 σ !=
            CircuitEquivalence.outputVal r2 nm.2 σ) := by
        refine any_congr ?_
        rintro ⟨n1, n2⟩ hnm
        have hmem := List.of_mem_zip hnm
        have hne1 : k1 ≠ n1 := by
          intro hk
          exact hn1.1 (hk ▸ hmem.1)
        have hne2 : k2 ≠ n2 := by
          intro hk
          exact hn2.1 (hk ▸ hmem.2)
        simp only [CircuitEquivalence.outputVal, sigExpr, dlookup, if_neg hne1, if_neg hne2]
      rw [htail]
      have := ih hn1.2 hn2.2
      unfold CircuitEquivalence.namedMiterHolds CircuitEquivalence.miterHolds at this
      exact this

theorem mem_sharedVars {c1 c2 : Circuit} {k : String} :
    k ∈ CircuitEquivalence.sharedVars c1 c2 ↔ k ∈ c1.inputs ∨ k ∈ c2.inputs := by
  unfold CircuitEquivalence.sharedVars
  rw [mem_addVarNames, mem_addVarNames]
  simp

theorem pairs_varsIn_shared {c1 c2 : Circuit} {o1 o2 : List (String × BExpr)}
    (h1 : CircuitEquivalence.build_z3_expr c1 = .ok o1)
    (h2 : CircuitEquivalence.build_z3_expr c2 = .ok o2) :
    ∀ pq ∈ o1.zip o2, pq.1.2.varsIn (CircuitEquivalence.sharedVars c1 c2) = true ∧
      pq.2.2.varsIn (CircuitEquivalence.sharedVars c1 c2) = true := by
  intro pq hpq
  have hm := List.of_mem_zip hpq
  constructor
  · exact varsIn_mono (fun s hs => mem_sharedVars.2 (Or.inl hs)) (equivBuild_ok_varsIn h1 pq.1 hm.1)
  · exact varsIn_mono (fun s hs => mem_sharedVars.2 (Or.inr hs)) (equivBuild_ok_varsIn h2 pq.2 hm.2)

theorem miterFind_none_iff {c1 c2 : Circuit} {o1 o2 : List (String × BExpr)}
    (h1 : CircuitEquivalence.build_z3_expr c1 = .ok o1)
    (h2 : CircuitEquivalence.build_z3_expr c2 = .ok o2) :
    ((allAssignments (CircuitEquivalence.sharedVars c1 c2)).find?
        (fun a => CircuitEquivalence.miterHolds (o1.zip o2) (assignFun a)) = none)
      ↔ ∀ σ : String → Bool, CircuitEquivalence.miterHolds (o1.zip o2) σ = false := by
  constructor
  · intro hnone σ
    cases hσ : CircuitEquivalence.miterHolds (o1.zip o2) σ with
    | false => rfl
    | true =>
      rcases allAssignments_complete (CircuitEquivalence.sharedVars c1 c2) σ with ⟨a, ha, hagree⟩
      have hsat : CircuitEquivalence.miterHolds (o1.zip o2) (assignFun a) = true := by
        rw [miterHolds_congr (pairs_varsIn_shared h1 h2) hagree]
        exact hσ
      have := List.find?_eq_none.1 hnone a ha
      simp [hsat] at this
  · intro hall
    exact List.find?_eq_none.2 (fun a _ => by simp [hall (assignFun a)])

theorem checkT_notEquiv_inv {c1 c2 : Circuit} {ia : List (String × Bool)}
    {ds : List (String × String × Bool × Bool)} {q : Nat}
    (hres : CircuitEquivalence.check_circuit_equivalenceT c1 c2 = (.notEquiv ia ds, q)) :
    ∃ o1 o2 a,
      CircuitEquivalence.build_z3_expr c1 = .ok o1 ∧
      CircuitEquivalence.build_z3_expr c2 = .ok o2 ∧
      (allAssignments (CircuitEquivalence.sharedVars c1 c2)).find?
        (fun a0 => CircuitEquivalence.miterHolds (o1.zip o2) (assignFun a0)) = some a ∧
      ia = CircuitEquivalence.extractInputs c1 (CircuitEquivalence.sharedVars c1 c2) (assignFun a) ∧
      ds = CircuitEquivalence.diffOutputs (o1.zip o2) (assignFun a) ∧ q = 1 := by
  unfold CircuitEquivalence.check_circuit_equivalenceT at hres
  cases hb1 : CircuitEquivalence.build_z3_expr c1 with
  | error e => rw [hb1] at hres; simp at hres
  | ok o1 =>
    rw [hb1] at hres
    cases hb2 : CircuitEquivalence.build_z3_expr c2 with
    | error e => rw [hb2] at hres; simp at hres
    | ok o2 =>
      rw [hb2] at hres
      simp only at hres
      by_cases hlen : o1.length ≠ o2.length
      · rw [if_pos hlen] at hres
        simp at hres
      · rw [if_neg hlen] at hres
        cases hfind : (allAssignments (CircuitEquivalence.sharedVars c1 c2)).find?
            (fun a0 => CircuitEquivalence.miterHolds (o1.zip o2) (assignFun a0)) with
        | none => rw [hfind] at hres; simp at hres
        | some a =>
          rw [hfind] at hres
          simp only [Prod.mk.injEq, CircuitEquivalence.EquivResult.notEquiv.injEq] at hres
          exact ⟨o1, o2, a, rfl, rfl, hfind, hres.1.1.symm, hres.1.2.symm, hres.2.symm⟩

theorem mem_diffOutputs {pairs : List ((String × BExpr) × (String × BExpr))}
    {σ : String → Bool} {t : String × String × Bool × Bool} :
    t ∈ CircuitEquivalence.diffOutputs pairs σ ↔
      ∃ pq ∈ pairs, pq.1.2.eval σ ≠ pq.2.2.eval σ ∧
        t = (pq.1.1, pq.2.1, pq.1.2.eval σ, pq.2.2.eval σ) := by
  unfold CircuitEquivalence.diffOutputs
  rw [List.mem_filterMap]
  constructor
  · rintro ⟨pq, hpq, hf⟩
    simp only at hf
    by_cases hne : (pq.1.2.eval σ != pq.2.2.eval σ) = true
    · rw [if_pos hne] at hf
      injection hf with hf
      exact ⟨pq, hpq, by simpa using hne, hf.symm⟩
    · rw [if_neg hne] at hf
      cases hf
  · rintro ⟨pq, hpq, hne, ht⟩
    refine ⟨pq, hpq, ?_⟩
    simp only
    rw [if_pos (by simpa using hne), ht]

theorem diffOutputs_ne_nil {pairs : List ((String × BExpr) × (String × BExpr))}
    {σ : String → Bool} (h : CircuitEquivalence.miterHolds pairs σ = true) :
    CircuitEquivalence.diffOutputs pairs σ ≠ [] := by
  unfold CircuitEquivalence.miterHolds at h
  rcases List.any_eq_true.1 h with ⟨pq, hpq, hne⟩
  intro hnil
  have hmem : (pq.1.1, pq.2.1, pq.1.2.eval σ, pq.2.2.eval σ) ∈ CircuitEquivalence.diffOutputs pairs σ :=
    mem_diffOutputs.2 ⟨pq, hpq, by simpa using hne, rfl⟩
  rw [hnil] at hmem
  simp at hmem

theorem mem_foldl_extract {zv : List String} {σ : String → Bool} {p : String × Bool} :
    ∀ (l : List String) (acc : List (String × Bool)),
      p ∈ l.foldl (fun acc0 v => if zv.contains v then dinsert acc0 v (σ v) else acc0) acc →
      p ∈ acc ∨ p.1 ∈ l := by
  intro l
  induction l with
  | nil => intro acc h; exact Or.inl h
  | cons x xs ih =>
    intro acc h
    rcases ih (if zv.contains x then dinsert acc x (σ x) else acc) h with h | h
    · by_cases hx : zv.contains x
      · rw [if_pos hx] at h
        rcases mem_dinsert h with h | h
        · exact Or.inl h
        · right
          rw [h]
          simp
      · rw [if_neg hx] at h
        exact Or.inl h
    · exact Or.inr (List.mem_cons_of_mem _ h)

theorem mem_extractInputs {c1 : Circuit} {zv : List String} {σ : String → Bool}
    {p : String × Bool} (h : p ∈ CircuitEquivalence.extractInputs c1 zv σ) :
    p.1 ∈ c1.inputs := by
  unfold CircuitEquivalence.extractInputs at h
  rcases mem_foldl_extract c1.inputs [] h with h | h
  · simp at h
  · exact h

theorem all_congr {α : Type} {p q : α → Bool} :
    ∀ {l : List α}, (∀ x ∈ l, p x = q x) → l.all p = l.all q := by
  intro l
  induction l with
  | nil => intro _; rfl
  | cons x xs ih =>
    intro h
    simp only [List.all_cons]
    rw [h x (by simp), ih (fun y hy => h y (List.mem_cons_of_mem _ hy))]

theorem foldl_dinsert_congr {α : Type} {g1 g2 : String → α} :
    ∀ (l : List String) (acc : List (String × α)), (∀ x ∈ l, g1 x = g2 x) →
      l.foldl (fun m x => dinsert m x (g1 x)) acc = l.foldl (fun m x => dinsert m x (g2 x)) acc := by
  intro l
  induction l with
  | nil => intro acc _; rfl
  | cons x xs ih =>
    intro acc h
    simp only [List.foldl_cons]
    rw [h x (by simp), ih _ (fun y hy => h y (List.mem_cons_of_mem _ hy))]

theorem checkT_eq_branch {c1 c2 : Circuit} {o1 o2 : List (String × BExpr)}
    (h1 : CircuitEquivalence.build_z3_expr c1 = .ok o1)
    (h2 : CircuitEquivalence.build_z3_expr c2 = .ok o2)
    (hlen : o1.length = o2.length) :
    CircuitEquivalence.check_circuit_equivalenceT c1 c2 =
      match (allAssignments (CircuitEquivalence.sharedVars c1 c2)).find?
          (fun a => CircuitEquivalence.miterHolds (o1.zip o2) (assignFun a)) with
      | some a =>
        (.notEquiv
          (CircuitEquivalence.extractInputs c1 (CircuitEquivalence.sharedVars c1 c2) (assignFun a))
          (CircuitEquivalence.diffOutputs (o1.zip o2) (assignFun a)), 1)
      | none => (.equivalent, 1) := by
  unfold CircuitEquivalence.check_circuit_equivalenceT
  rw [h1, h2]
  simp only
  rw [if_neg (fun hne => hne hlen)]

/-- C6: for every circuit C that compiles (structurally valid), the
equivalence check of C against itself reports Equivalent. -/
theorem c6_check_equivalence_reflexive (c : Circuit) (o : List (String × BExpr))
    (h : CircuitEquivalence.build_z3_expr c = .ok o) :
    CircuitEquivalence.check_circuit_equivalence c c = .equivalent := by
  have hnone : (allAssignments (CircuitEquivalence.sharedVars c c)).find?
      (fun a => CircuitEquivalence.miterHolds (o.zip o) (assignFun a)) = none :=
    List.find?_eq_none.2 (fun a _ => by simp [miterHolds_zip_self])
  unfold CircuitEquivalence.check_circuit_equivalence
  rw [checkT_eq_branch h h rfl, hnone]

/-- C6 witness: reflexivity evaluated on the distributive-law example
circuit of the repository. -/
theorem c6_witness :
    CircuitEquivalence.check_circuit_equivalence
      (Circuit.mk ["A", "B", "C"]
        [Gate.mk "D" "AND" ["A", "B"], Gate.mk "E" "OR" ["D", "C"]] ["E"])
      (Circuit.mk ["A", "B", "C"]
        [Gate.mk "D" "AND" ["A", "B"], Gate.mk "E" "OR" ["D", "C"]] ["E"]) = .equivalent :=
  c6_check_equivalence_reflexive _
    [("E", .orE (.andE (.var "A") (.andE (.var "B") .trueConst))
      (.orE (.var "C") .falseConst))] rfl

/-- C4 counterexample: on a circuit with two gates both named C, the
validation flow returns a typed failure, but the equivalence flow ends
the hosting process with exit code 1 instead of returning a typed
result, contradicting the claim that neither flow terminates the
process. -/
theorem c4_counterexample :
    CircuitEvaluator.validate_circuit
      (Circuit.mk ["A", "B"] [Gate.mk "C" "AND" ["A", "B"], Gate.mk "C" "OR" ["A", "B"]] ["C"]) [] []
      = .structuralFailure (.duplicateGate "C") ∧
    CircuitEquivalence.check_circuit_equivalence
      (Circuit.mk ["A", "B"] [Gate.mk "C" "AND" ["A", "B"], Gate.mk "C" "OR" ["A", "B"]] ["C"])
      (Circuit.mk ["A", "B"] [Gate.mk "D" "AND" ["A", "B"] ] ["D"]) = .processExit 1 :=
  ⟨by decide, by decide⟩

/-- C4 (amended): a circuit with duplicate gate names makes the
validation flow return a typed StructuralError result, while the
equivalence flow terminates the process with exit code 1, whichever
circuit is compared against. -/
theorem c4_amended_duplicate_gate (c c2 : Circuit) (ia sa : List (String × Bool))
    (h : ¬ (c.gates.map Gate.name).Nodup) :
    (∃ e, CircuitEvaluator.validate_circuit c ia sa = .structuralFailure e) ∧
    CircuitEquivalence.check_circuit_equivalence c c2 = .processExit 1 := by
  constructor
  · rcases evalBuild_dup_error h with ⟨e, he⟩
    exact ⟨e, by simp [CircuitEvaluator.validate_circuit, he]⟩
  · rcases equivBuild_dup_error h with ⟨e, he⟩
    simp [CircuitEquivalence.check_circuit_equivalence,
      CircuitEquivalence.check_circuit_equivalenceT, he]

/-- C4 witness: the amended statement applied to the duplicate-gate
circuit of the repository test suite. -/
theorem c4_witness :
    ¬ ((Circuit.mk ["A", "B"] [Gate.mk "C" "AND" ["A", "B"], Gate.mk "C" "OR" ["A", "B"]] ["C"]).gates.map Gate.name).Nodup ∧
    ((∃ e, CircuitEvaluator.validate_circuit
        (Circuit.mk ["A", "B"] [Gate.mk "C" "AND" ["A", "B"], Gate.mk "C" "OR" ["A", "B"]] ["C"]) [] []
        = .structuralFailure e) ∧
      CircuitEquivalence.check_circuit_equivalence
        (Circuit.mk ["A", "B"] [Gate.mk "C" "AND" ["A", "B"], Gate.mk "C" "OR" ["A", "B"]] ["C"])
        (Circuit.mk ["A", "B"] [Gate.mk "D" "AND" ["A", "B"] ] ["D"]) = .processExit 1) :=
  ⟨by decide, c4_amended_duplicate_gate _ _ [] [] (by decide)⟩

/-- C5 counterexample: a circuit whose only gate is named like its only
primary input compiles successfully in both compilers; no
StructuralError is reported, contradicting the claim. -/
theorem c5_counterexample :
    CircuitEquivalence.build_z3_expr (Circuit.mk ["A"] [Gate.mk "A" "NOT" ["A"] ] ["A"])
      = .ok [("A", .notE (.var "A"))] ∧
    CircuitEvaluator.build_z3_expr (Circuit.mk ["A"] [Gate.mk "A" "NOT" ["A"] ] ["A"])
      = .ok ([("A", .var "A")], [("A", .notE (.var "A"))], ["A"]) :=
  ⟨rfl, rfl⟩

/-- C5 (amended): compilation enforces name uniqueness only among the
gates; whenever the gate names are pairwise distinct, neither compiler
reports a duplicate-name StructuralError, even when a gate shares its
name with a primary input. -/
theorem c5_amended_no_input_collision_check (c : Circuit) (n : String)
    (h : (c.gates.map Gate.name).Nodup) :
    CircuitEquivalence.build_z3_expr c ≠ .error (.duplicateGate n) ∧
    CircuitEvaluator.build_z3_expr c ≠ .error (.duplicateGate n) :=
  ⟨equivBuild_no_dup h, evalBuild_no_dup h⟩

/-- C5 witness: the amended statement applied to the input-shadowing
circuit, whose single gate is named like the input. -/
theorem c5_witness :
    ((Circuit.mk ["A"] [Gate.mk "A" "NOT" ["A"] ] ["A"]).gates.map Gate.name).Nodup ∧
    (CircuitEquivalence.build_z3_expr (Circuit.mk ["A"] [Gate.mk "A" "NOT" ["A"] ] ["A"])
        ≠ .error (.duplicateGate "A") ∧
      CircuitEvaluator.build_z3_expr (Circuit.mk ["A"] [Gate.mk "A" "NOT" ["A"] ] ["A"])
        ≠ .error (.duplicateGate "A")) :=
  ⟨by decide, c5_amended_no_input_collision_check _ "A" (by decide)⟩

/-- C2 counterexample: two circuits whose written output lists have
different lengths (two entries against one), yet the checker performs an
oracle query and returns a counterexample, because the duplicated output
name collapses in the name-keyed output dictionary. -/
theorem c2_counterexample :
    (Circuit.mk ["P"] [] ["P", "P"]).outputs.length ≠
      (Circuit.mk ["P"] [Gate.mk "N" "NOT" ["P"] ] ["N"]).outputs.length ∧
    CircuitEquivalence.check_circuit_equivalenceT
      (Circuit.mk ["P"] [] ["P", "P"])
      (Circuit.mk ["P"] [Gate.mk "N" "NOT" ["P"] ] ["N"])
      = (.notEquiv [("P", false)] [("P", "N", false, true)], 1) :=
  ⟨by decide, by decide⟩

/-- C2 (amended): when the counts of distinct output names differ, the
checker returns NotEquivalent with no counterexample and performs no
oracle query. -/
theorem c2_amended_distinct_output_counts (c1 c2 : Circuit) (o1 o2 : List (String × BExpr))
    (h1 : CircuitEquivalence.build_z3_expr c1 = .ok o1)
    (h2 : CircuitEquivalence.build_z3_expr c2 = .ok o2)
    (hlen : (firstDedup c1.outputs).length ≠ (firstDedup c2.outputs).length) :
    CircuitEquivalence.check_circuit_equivalenceT c1 c2 = (.notEquivNoCex, 0) := by
  have hne : o1.length ≠ o2.length := by
    intro h
    apply hlen
    calc (firstDedup c1.outputs).length
        = (o1.map Prod.fst).length := by rw [equivBuild_ok_keys h1]
      _ = o1.length := List.length_map _ _
      _ = o2.length := h
      _ = (o2.map Prod.fst).length := (List.length_map _ _).symm
      _ = (firstDedup c2.outputs).length := by rw [equivBuild_ok_keys h2]
  unfold CircuitEquivalence.check_circuit_equivalenceT
  rw [h1, h2]
  simp only
  rw [if_pos hne]

/-- C2 witness: the amended statement applied to the different-output-
count pair of the repository test suite. -/
theorem c2_witness :
    (firstDedup (Circuit.mk ["A", "B"] [Gate.mk "C" "AND" ["A", "B"] ] ["C"]).outputs).length ≠
      (firstDedup (Circuit.mk ["A", "B"]
        [Gate.mk "C" "AND" ["A", "B"], Gate.mk "D" "OR" ["A", "B"] ] ["C", "D"]).outputs).length ∧
    CircuitEquivalence.check_circuit_equivalenceT
      (Circuit.mk ["A", "B"] [Gate.mk "C" "AND" ["A", "B"] ] ["C"])
      (Circuit.mk ["A", "B"] [Gate.mk "C" "AND" ["A", "B"], Gate.mk "D" "OR" ["A", "B"] ] ["C", "D"])
      = (.notEquivNoCex, 0) :=
  ⟨by decide,
    c2_amended_distinct_output_counts _ _
      [("C", .andE (.var "A") (.andE (.var "B") .trueConst))]
      [("C", .andE (.var "A") (.andE (.var "B") .trueConst)),
        ("D", .orE (.var "A") (.orE (.var "B") .falseConst))]
      rfl rfl (by decide)⟩

/-- C10: whenever the checker returns NotEquivalent with a
counterexample, every entry of the counterexample input assignment is a
declared input of the first circuit; inputs declared only by the second
circuit never appear. -/
theorem c10_counterexample_inputs_only (c1 c2 : Circuit) (ia : List (String × Bool))
    (ds : List (String × String × Bool × Bool)) (q : Nat)
    (hres : CircuitEquivalence.check_circuit_equivalenceT c1 c2 = (.notEquiv ia ds, q)) :
    inputsOnly c1 ia = true := by
  rcases checkT_notEquiv_inv hres with ⟨o1, o2, a, _, _, _, hia, _, _⟩
  unfold inputsOnly
  rw [List.all_eq_true]
  intro p hp
  rw [hia] at hp
  simpa using mem_extractInputs hp

/-- C10 witness: a pair where the second circuit declares an extra input
Q driving its output; the returned counterexample mentions only P, the
first circuit input. -/
theorem c10_witness :
    inputsOnly (Circuit.mk ["P"] [] ["P"]) [("P", false)] = true :=
  c10_counterexample_inputs_only
    (Circuit.mk ["P"] [] ["P"])
    (Circuit.mk ["P", "Q"] [Gate.mk "N" "NOT" ["Q"] ] ["N"])
    [("P", false)] [("P", "N", false, true)] 1 (by decide)

/-- C3: whenever the checker returns NotEquivalent with a
counterexample, there is a witnessing model satisfying the miter under
which the reported differingOutputs list is nonempty and contains
exactly the positional output pairs whose compiled expressions evaluate
to different truth values. -/
theorem c3_differing_outputs_exact (c1 c2 : Circuit) (ia : List (String × Bool))
    (ds : List (String × String × Bool × Bool)) (q : Nat)
    (hres : CircuitEquivalence.check_circuit_equivalenceT c1 c2 = (.notEquiv ia ds, q)) :
    ∃ (o1 o2 : List (String × BExpr)) (σ : String → Bool),
      CircuitEquivalence.build_z3_expr c1 = .ok o1 ∧
      CircuitEquivalence.build_z3_expr c2 = .ok o2 ∧
      CircuitEquivalence.miterHolds (o1.zip o2) σ = true ∧
      ds ≠ [] ∧
      (∀ t, t ∈ ds ↔ ∃ pq ∈ o1.zip o2,
        pq.1.2.eval σ ≠ pq.2.2.eval σ ∧
        t = (pq.1.1, pq.2.1, pq.1.2.eval σ, pq.2.2.eval σ)) := by
  rcases checkT_notEquiv_inv hres with ⟨o1, o2, a, h1, h2, hfind, _, hds, _⟩
  have hsat : CircuitEquivalence.miterHolds (o1.zip o2) (assignFun a) = true := by
    simpa using List.find?_some hfind
  refine ⟨o1, o2, assignFun a, h1, h2, hsat, ?_, ?_⟩
  · rw [hds]
    exact diffOutputs_ne_nil hsat
  · intro t
    rw [hds]
    exact mem_diffOutputs

/-- C3 witness: the exactness statement applied to a single-output
non-equivalent pair, identity against negation. -/
theorem c3_witness :
    ∃ (o1 o2 : List (String × BExpr)) (σ : String → Bool),
      CircuitEquivalence.build_z3_expr (Circuit.mk ["P"] [] ["P"]) = .ok o1 ∧
      CircuitEquivalence.build_z3_expr (Circuit.mk ["P"] [Gate.mk "N" "NOT" ["P"] ] ["N"]) = .ok o2 ∧
      CircuitEquivalence.miterHolds (o1.zip o2) σ = true ∧
      [("P", "N", false, true)] ≠ ([] : List (String × String × Bool × Bool)) ∧
      (∀ t, t ∈ [("P", "N", false, true)] ↔ ∃ pq ∈ o1.zip o2,
        pq.1.2.eval σ ≠ pq.2.2.eval σ ∧
        t = (pq.1.1, pq.2.1, pq.1.2.eval σ, pq.2.2.eval σ)) :=
  c3_differing_outputs_exact
    (Circuit.mk ["P"] [] ["P"]) (Circuit.mk ["P"] [Gate.mk "N" "NOT" ["P"] ] ["N"])
    [("P", false)] [("P", "N", false, true)] 1 (by decide)

/-- C9: the output dictionaries are keyed by name, so duplicate names in
the written output lists collapse onto their first occurrence; the
output-count comparison and the positional miter pairs range over the
distinct output names, not over the lists as written. -/
theorem c9_outputs_name_collapsed (c1 c2 : Circuit) (o1 o2 : List (String × BExpr))
    (h1 : CircuitEquivalence.build_z3_expr c1 = .ok o1)
    (h2 : CircuitEquivalence.build_z3_expr c2 = .ok o2) :
    o1.map Prod.fst = firstDedup c1.outputs ∧
    o2.map Prod.fst = firstDedup c2.outputs ∧
    (o1.zip o2).map (fun pq => (pq.1.1, pq.2.1)) =
      (firstDedup c1.outputs).zip (firstDedup c2.outputs) ∧
    (CircuitEquivalence.check_circuit_equivalence c1 c2 = .notEquivNoCex ↔
      (firstDedup c1.outputs).length ≠ (firstDedup c2.outputs).length) := by
  have k1 := equivBuild_ok_keys h1
  have k2 := equivBuild_ok_keys h2
  have L1 : o1.length = (firstDedup c1.outputs).length := by
    rw [← k1, List.length_map]
  have L2 : o2.length = (firstDedup c2.outputs).length := by
    rw [← k2, List.length_map]
  refine ⟨k1, k2, ?_, ?_, ?_⟩
  · rw [← k1, ← k2, List.zip_map]
    rfl
  · intro hres
    intro hlen
    have hlen' : o1.length = o2.length := by rw [L1, L2, hlen]
    rw [CircuitEquivalence.check_circuit_equivalence, checkT_eq_branch h1 h2 hlen'] at hres
    cases hfind : (allAssignments (CircuitEquivalence.sharedVars c1 c2)).find?
        (fun a => CircuitEquivalence.miterHolds (o1.zip o2) (assignFun a)) with
    | none => rw [hfind] at hres; cases hres
    | some a => rw [hfind] at hres; cases hres
  · intro hlen
    have hne : o1.length ≠ o2.length := by
      rw [L1, L2]
      exact hlen
    unfold CircuitEquivalence.check_circuit_equivalence CircuitEquivalence.check_circuit_equivalenceT
    rw [h1, h2]
    simp only
    rw [if_pos hne]

/-- C9 witness: the collapse statement applied to a pair whose first
circuit writes a duplicated output name; the checker decides on one
distinct name against two and answers NotEquivalent with no
counterexample. -/
theorem c9_witness :
    [("P", BExpr.var "P")].map Prod.fst = firstDedup (Circuit.mk ["P"] [] ["P", "P"]).outputs ∧
    [("P", BExpr.var "P"), ("R", BExpr.andE (.var "P") .trueConst)].map Prod.fst =
      firstDedup (Circuit.mk ["P"] [Gate.mk "R" "AND" ["P"] ] ["P", "R"]).outputs ∧
    (([("P", BExpr.var "P")].zip
        [("P", BExpr.var "P"), ("R", BExpr.andE (.var "P") .trueConst)]).map
      (fun pq => (pq.1.1, pq.2.1)) =
      (firstDedup (Circuit.mk ["P"] [] ["P", "P"]).outputs).zip
        (firstDedup (Circuit.mk ["P"] [Gate.mk "R" "AND" ["P"] ] ["P", "R"]).outputs)) ∧
    (CircuitEquivalence.check_circuit_equivalence
        (Circuit.mk ["P"] [] ["P", "P"]) (Circuit.mk ["P"] [Gate.mk "R" "AND" ["P"] ] ["P", "R"])
        = .notEquivNoCex ↔
      (firstDedup (Circuit.mk ["P"] [] ["P", "P"]).outputs).length ≠
        (firstDedup (Circuit.mk ["P"] [Gate.mk "R" "AND" ["P"] ] ["P", "R"]).outputs).length) :=
  c9_outputs_name_collapsed _ _ _ _ rfl rfl

/-- C1 (amended): for every pair of structurally valid circuits whose
output lists contain no duplicate names and have equal length, the
checker reports NotEquivalent exactly when some valuation of the shared
input variables makes at least one positional output pair evaluate
differently, and reports Equivalent exactly when every valuation makes
all positional output pairs agree. -/
theorem c1_amended_verdict_iff (c1 c2 : Circuit) (o1 o2 : List (String × BExpr))
    (h1 : CircuitEquivalence.build_z3_expr c1 = .ok o1)
    (h2 : CircuitEquivalence.build_z3_expr c2 = .ok o2)
    (hn1 : c1.outputs.Nodup) (hn2 : c2.outputs.Nodup)
    (hlen : c1.outputs.length = c2.outputs.length) :
    (CircuitEquivalence.isNotEquivalentResult
        (CircuitEquivalence.check_circuit_equivalence c1 c2) = true ↔
      ∃ σ : String → Bool,
        CircuitEquivalence.namedMiterHolds c1.outputs c2.outputs o1 o2 σ = true) ∧
    (CircuitEquivalence.check_circuit_equivalence c1 c2 = .equivalent ↔
      ∀ σ : String → Bool,
        CircuitEquivalence.namedMiterHolds c1.outputs c2.outputs o1 o2 σ = false) := by
  have k1 : o1.map Prod.fst = c1.outputs := by
    rw [equivBuild_ok_keys h1, firstDedup_of_nodup hn1]
  have k2 : o2.map Prod.fst = c2.outputs := by
    rw [equivBuild_ok_keys h2, firstDedup_of_nodup hn2]
  have hnamed : ∀ σ : String → Bool,
      CircuitEquivalence.namedMiterHolds c1.outputs c2.outputs o1 o2 σ =
        CircuitEquivalence.miterHolds (o1.zip o2) σ := by
    intro σ
    rw [← k1, ← k2]
    exact namedMiter_eq_miter (by rw [k1]; exact hn1) (by rw [k2]; exact hn2)
  have hlen' : o1.length = o2.length := by
    have hm : (o1.map Prod.fst).length = (o2.map Prod.fst).length := by
      rw [k1, k2]
      exact hlen
    simpa using hm
  rw [CircuitEquivalence.check_circuit_equivalence, checkT_eq_branch h1 h2 hlen']
  cases hfind : (allAssignments (CircuitEquivalence.sharedVars c1 c2)).find?
      (fun a => CircuitEquivalence.miterHolds (o1.zip o2) (assignFun a)) with
  | some a =>
    have hsat : CircuitEquivalence.miterHolds (o1.zip o2) (assignFun a) = true := by
      simpa using List.find?_some hfind
    constructor
    · constructor
      · intro _
        exact ⟨assignFun a, by rw [hnamed]; exact hsat⟩
      · intro _
        rfl
    · constructor
      · intro hres
        cases hres
      · intro hall
        have hfalse := hall (assignFun a)
        rw [hnamed, hsat] at hfalse
        cases hfalse
  | none =>
    have hnone := (miterFind_none_iff h1 h2).1 hfind
    constructor
    · constructor
      · intro hres
        cases hres
      · rintro ⟨σ, hσ⟩
        rw [hnamed, hnone σ] at hσ
        cases hσ
    · constructor
      · intro _ σ
        rw [hnamed]
        exact hnone σ
      · intro _
        rfl

/-- C1 counterexample: two structurally valid circuits with equal
written output counts (two and two) that agree on every positional
output pair under every valuation, yet the checker reports
NotEquivalent, because the duplicated output name of the first circuit
collapses in the name-keyed output dictionary and the dictionary sizes
mismatch. -/
theorem c1_counterexample :
    (Circuit.mk ["P"] [] ["P", "P"]).outputs.length =
      (Circuit.mk ["P"] [Gate.mk "R" "AND" ["P"] ] ["P", "R"]).outputs.length ∧
    CircuitEquivalence.build_z3_expr (Circuit.mk ["P"] [] ["P", "P"]) = .ok [("P", .var "P")] ∧
    CircuitEquivalence.build_z3_expr (Circuit.mk ["P"] [Gate.mk "R" "AND" ["P"] ] ["P", "R"]) =
      .ok [("P", .var "P"), ("R", .andE (.var "P") .trueConst)] ∧
    CircuitEquivalence.namedMiterUnsat
      (Circuit.mk ["P"] [] ["P", "P"]) (Circuit.mk ["P"] [Gate.mk "R" "AND" ["P"] ] ["P", "R"])
      [("P", .var "P")] [("P", .var "P"), ("R", .andE (.var "P") .trueConst)] ∧
    CircuitEquivalence.isNotEquivalentResult
      (CircuitEquivalence.check_circuit_equivalence
        (Circuit.mk ["P"] [] ["P", "P"])
        (Circuit.mk ["P"] [Gate.mk "R" "AND" ["P"] ] ["P", "R"])) = true := by
  refine ⟨by decide, rfl, rfl, ?_, by decide⟩
  intro σ
  simp [CircuitEquivalence.namedMiterHolds, CircuitEquivalence.outputVal, sigExpr, dlookup,
    BExpr.eval]

/-- C1 witness: the amended statement applied to identity against
negation on the single input A. -/
theorem c1_witness :
    (CircuitEquivalence.isNotEquivalentResult
        (CircuitEquivalence.check_circuit_equivalence
          (Circuit.mk ["A"] [] ["A"]) (Circuit.mk ["A"] [Gate.mk "N" "NOT" ["A"] ] ["N"])) = true ↔
      ∃ σ : String → Bool,
        CircuitEquivalence.namedMiterHolds ["A"] ["N"]
          [("A", .var "A")] [("N", .notE (.var "A"))] σ = true) ∧
    (CircuitEquivalence.check_circuit_equivalence
        (Circuit.mk ["A"] [] ["A"]) (Circuit.mk ["A"] [Gate.mk "N" "NOT" ["A"] ] ["N"]) = .equivalent ↔
      ∀ σ : String → Bool,
        CircuitEquivalence.namedMiterHolds ["A"] ["N"]
          [("A", .var "A")] [("N", .notE (.var "A"))] σ = false) :=
  c1_amended_verdict_iff
    (Circuit.mk ["A"] [] ["A"]) (Circuit.mk ["A"] [Gate.mk "N" "NOT" ["A"] ] ["N"])
    [("A", .var "A")] [("N", .notE (.var "A"))]
    rfl rfl (by decide) (by decide) rfl

/-- C8: for a structurally valid circuit and well-formed input and
internal-signal assignments that are jointly unsatisfiable against the
gate-defining constraints, the validator returns the contradiction
result, with no output values and no crash. -/
theorem c8_contradiction_result (c : Circuit) (ia sa : List (String × Bool))
    (outs constraints : List (String × BExpr)) (zv : List String)
    (hb : CircuitEvaluator.build_z3_expr c = .ok (outs, constraints, zv))
    (hia : ∀ p ∈ ia, p.1 ∈ c.inputs)
    (hsa : ∀ p ∈ sa, p.1 ∈ zv)
    (hunsat : jointlyUnsat constraints ia sa) :
    CircuitEvaluator.validate_circuit c ia sa = .contradiction := by
  have hn1 : ia.find? (fun p => !(c.inputs.contains p.1)) = none :=
    List.find?_eq_none.2 (fun p hp => by simp [hia p hp])
  have hn2 : sa.find? (fun p => !(zv.contains p.1)) = none :=
    List.find?_eq_none.2 (fun p hp => by simp [hsa p hp])
  have hn3 : (allAssignments zv).find?
      (fun a => CircuitEvaluator.modelOk constraints ia sa (assignFun a)) = none :=
    List.find?_eq_none.2 (fun a _ => by simp [hunsat (assignFun a)])
  unfold CircuitEvaluator.validate_circuit
  rw [hb]
  simp only [hn1, hn2, hn3]

/-- C8 witness: forcing the output of a NOT gate to match its input
under the input assignment A = true yields the contradiction result. -/
theorem c8_witness :
    jointlyUnsat [("E2", BExpr.notE (.var "A"))] [("A", true)] [("E2", true)] ∧
    CircuitEvaluator.validate_circuit
      (Circuit.mk ["A"] [Gate.mk "E2" "NOT" ["A"] ] ["E2"])
      [("A", true)] [("E2", true)] = .contradiction := by
  have hu : jointlyUnsat [("E2", BExpr.notE (.var "A"))] [("A", true)] [("E2", true)] := by
    intro σ
    simp only [CircuitEvaluator.modelOk, List.all_cons, List.all_nil, BExpr.eval]
    cases hA : σ "A" <;> cases hE : σ "E2" <;> simp [hA, hE]
  exact ⟨hu, c8_contradiction_result _ _ _ _ _ _ rfl (by decide) (by decide) hu⟩

/-- C7: for every circuit with no gates whose outputs all name primary
inputs, and every duplicate-free input assignment covering exactly the
inputs, validation succeeds and the value reported for each declared
output is the value the assignment gives to the input of that name. -/
theorem c7_no_gates_passthrough (c : Circuit) (ia : List (String × Bool))
    (hg : c.gates = [])
    (houts : ∀ o ∈ c.outputs, o ∈ c.inputs)
    (hnd : (ia.map Prod.fst).Nodup)
    (hcov1 : ∀ k ∈ ia.map Prod.fst, k ∈ c.inputs)
    (hcov2 : ∀ k ∈ c.inputs, k ∈ ia.map Prod.fst) :
    CircuitEvaluator.validate_circuit c ia [] = .valid (outputValuesFrom c.outputs ia) ∧
    ∀ o ∈ c.outputs, dlookup (outputValuesFrom c.outputs ia) o = dlookup ia o := by
  have hdef : ∀ out ∈ c.outputs, (dlookup (inputsExprMap c.inputs) out).isSome = true := by
    intro o ho
    rw [dlookup_inputsExprMap, if_pos (houts o ho)]
    rfl
  rcases @mapOutputs_ok_of_defined (inputsExprMap c.inputs) c.outputs [] hdef
    with ⟨outs, houtsEq⟩
  have hb : CircuitEvaluator.build_z3_expr c = .ok (outs, [], addVarNames [] c.inputs) := by
    unfold CircuitEvaluator.build_z3_expr
    rw [hg]
    simp only [CircuitEvaluator.processGates, houtsEq]
  have hself : ∀ p ∈ ia, dlookup ia p.1 = some p.2 := by
    intro p hp
    exact dlookup_of_mem_nodup hnd hp
  have hn1 : ia.find? (fun p => !(c.inputs.contains p.1)) = none :=
    List.find?_eq_none.2
      (fun p hp => by simp [hcov1 p.1 (List.mem_map_of_mem _ hp)])
  have hf : CircuitEvaluator.modelOk [] ia [] (fun s => (dlookup ia s).getD false) = true := by
    simp only [CircuitEvaluator.modelOk, List.all_nil, Bool.true_and, Bool.and_true]
    rw [List.all_eq_true]
    intro p hp
    simp [hself p hp]
  rcases allAssignments_complete (addVarNames [] c.inputs) (fun s => (dlookup ia s).getD false)
    with ⟨a, ha, hagree⟩
  have hmOk : CircuitEvaluator.modelOk [] ia [] (assignFun a) = true := by
    have hcongr : CircuitEvaluator.modelOk [] ia [] (assignFun a) =
        CircuitEvaluator.modelOk [] ia [] (fun s => (dlookup ia s).getD false) := by
      simp only [CircuitEvaluator.modelOk, List.all_nil, Bool.true_and, Bool.and_true]
      refine all_congr ?_
      intro p hp
      have hpz : p.1 ∈ addVarNames [] c.inputs := by
        rw [mem_addVarNames]
        exact Or.inr (hcov1 p.1 (List.mem_map_of_mem _ hp))
      rw [hagree p.1 hpz]
    rw [hcongr]
    exact hf
  cases hfind : (allAssignments (addVarNames [] c.inputs)).find?
      (fun a0 => CircuitEvaluator.modelOk [] ia [] (assignFun a0)) with
  | none =>
    exact absurd hmOk (by simpa using List.find?_eq_none.1 hfind a ha)
  | some a0 =>
    have hsat : CircuitEvaluator.modelOk [] ia [] (assignFun a0) = true := by
      simpa using List.find?_some hfind
    have hvals : ∀ p ∈ ia, assignFun a0 p.1 = p.2 := by
      simp only [CircuitEvaluator.modelOk, List.all_nil, Bool.true_and, Bool.and_true] at hsat
      rw [List.all_eq_true] at hsat
      intro p hp
      simpa using hsat p hp
    have houtlk : ∀ o ∈ c.outputs, dlookup outs o = some (.var o) := by
      intro o ho
      rw [mapOutputs_lookup houtsEq o, if_pos ho, dlookup_inputsExprMap, if_pos (houts o ho)]
    have hgeq : ∀ o ∈ c.outputs,
        (sigExpr outs o).eval (assignFun a0) = (dlookup ia o).getD false := by
      intro o ho
      rw [sigExpr, houtlk o ho]
      simp only [Option.getD_some, BExpr.eval]
      rcases List.mem_map.1 (hcov2 o (houts o ho)) with ⟨p, hp, hfst⟩
      rw [← hfst]
      simp [hvals p hp, hself p hp]
    constructor
    · unfold CircuitEvaluator.validate_circuit
      rw [hb]
      simp only [hn1, List.find?_nil, hfind]
      unfold outputValuesFrom
      rw [foldl_dinsert_congr c.outputs [] hgeq]
    · intro o ho
      unfold outputValuesFrom
      rw [foldl_dinsert_lookup (fun out => (dlookup ia out).getD false) c.outputs [] o,
        if_pos ho]
      rcases List.mem_map.1 (hcov2 o (houts o ho)) with ⟨p, hp, hfst⟩
      rw [← hfst, hself p hp]
      rfl

/-- C7 witness: a two-input pass-through circuit validated at A = true,
B = false reports outputs A = true, B = false. -/
theorem c7_witness :
    CircuitEvaluator.validate_circuit (Circuit.mk ["A", "B"] [] ["A", "B"])
      [("A", true), ("B", false)] [] = .valid [("A", true), ("B", false)] := by
  have h := c7_no_gates_passthrough (Circuit.mk ["A", "B"] [] ["A", "B"])
    [("A", true), ("B", false)] rfl (by decide) (by decide) (by decide) (by decide)
  rw [h.1]
  rfl
